import Mathlib

/-!
Shallow embedding of `src/main.py` (goit-python-hw-12), an interactive
contact manager.  Strings are modelled as Lean `String`/`List Char`
(ASCII fragment of Python `str`: the inputs the claims quantify over are
ASCII, and Python `\d` / `str.lower` agree with the ASCII model there).
Fallible Python code (raising `ValueError` etc.) is modelled with
`Option`/`Except`.
-/

namespace ContactBot

/-- Python `\s` for the ASCII range: space, tab, newline, carriage
return, form feed, vertical tab. -/
def pyIsSpace (c : Char) : Bool :=
  c = ' ' || c = '\t' || c = '\n' || c = '\r' || c = '\x0c' || c = '\x0b'

/-- The single-quote character, written via its code point. -/
def squote : Char := Char.ofNat 39

/-- The double-quote character. -/
def dquote : Char := Char.ofNat 34

/-- Python `re` semantics of a pattern `^core$` used with `re.match`:
`$` matches at the end of the string or just before a single trailing
newline, so the pattern accepts `cs` itself or `cs` minus a final
`'\n'`. -/
def dollarWrap (core : List Char → Bool) (cs : List Char) : Bool :=
  core cs ||
    (match cs.getLast? with
     | some c => c = '\n' && core cs.dropLast
     | none => false)

/-- Core of the pattern `\d{11}`: exactly 11 ASCII decimal digits. -/
def phoneCore (cs : List Char) : Bool :=
  cs.length = 11 && cs.all Char.isDigit

/-- `re.match(r'^\d{11}$', s) is not None` — the check performed by the
`Phone` value setter and by the `add`/`change` handlers. -/
def matchPhone (s : String) : Bool :=
  dollarWrap phoneCore s.toList

/-- Core of the tokenizer pattern `\d{4}/\d{2}/\d{2}`. -/
def bdayTokCore (cs : List Char) : Bool :=
  match cs with
  | [a, b, c, d, s1, e, f, s2, g, h] =>
    a.isDigit && b.isDigit && c.isDigit && d.isDigit && s1 = '/' &&
      e.isDigit && f.isDigit && s2 = '/' && g.isDigit && h.isDigit
  | _ => false

/-- `re.match(r'^\d{4}/\d{2}/\d{2}$', s) is not None` (tokenizer). -/
def matchBdayTok (s : String) : Bool :=
  dollarWrap bdayTokCore s.toList

/-- Core of the tokenizer name pattern `[a-zA-Z\- ]+`. -/
def nameCore (cs : List Char) : Bool :=
  !cs.isEmpty && cs.all (fun c => c.isAlpha || c = '-' || c = ' ')

/-- `re.match(r'^[a-zA-Z\- ]+$', s) is not None` (tokenizer). -/
def matchName (s : String) : Bool :=
  dollarWrap nameCore s.toList

/-- Python `int()` on a string of ASCII digits. -/
def digitsToNat (cs : List Char) : Nat :=
  cs.foldl (fun a c => a * 10 + (c.toNat - 48)) 0

/-- Python `str.lower` (ASCII fragment). -/
def lowerStr (s : String) : String :=
  String.mk (s.toList.map Char.toLower)

/-- Python `needle in haystack` substring test on character lists. -/
def pyIn (needle haystack : List Char) : Bool :=
  (haystack.tails).any (fun t => needle.isPrefixOf t)

/-- Python `str.strip(chars)`: drop from both ends every character
satisfying `p`. -/
def stripChars (p : Char → Bool) (cs : List Char) : List Char :=
  ((cs.dropWhile p).reverse.dropWhile p).reverse

/-- Python `str.strip()` (whitespace, both ends). -/
def pyStrip (cs : List Char) : List Char :=
  stripChars pyIsSpace cs

/-! ## Calendar arithmetic (CPython `datetime`) -/

/-- Gregorian leap year, as in CPython `datetime._is_leap`. -/
def isLeap (y : Nat) : Bool :=
  decide (y % 4 = 0 ∧ (¬ y % 100 = 0 ∨ y % 400 = 0))

/-- `datetime._days_in_month` (only queried for months 1..12). -/
def daysInMonth (y m : Nat) : Nat :=
  if m = 2 then (if isLeap y then 29 else 28)
  else if m = 4 ∨ m = 6 ∨ m = 9 ∨ m = 11 then 30
  else 31

/-- Sum of the lengths of the first `k` months of year `y`. -/
def sumDIM (y k : Nat) : Nat :=
  (List.range k).foldl (fun a i => a + daysInMonth y (i + 1)) 0

/-- `datetime._days_before_month y m`: days in `y` preceding month `m`. -/
def daysBeforeMonth (y m : Nat) : Nat :=
  sumDIM y (m - 1)

/-- `datetime._days_before_year y`: days before January 1 of year `y`
in the proleptic Gregorian calendar. -/
def daysBeforeYear (y : Nat) : Nat :=
  365 * (y - 1) + (y - 1) / 4 + (y - 1) / 400 - (y - 1) / 100

/-- A calendar date, as CPython `datetime.date` (validity tracked by
`Date.valid`). -/
structure Date where
  year : Nat
  month : Nat
  day : Nat
  deriving DecidableEq, Repr

/-- The invariant CPython `datetime.date` enforces at construction. -/
def Date.valid (d : Date) : Prop :=
  1 ≤ d.year ∧ d.year ≤ 9999 ∧ 1 ≤ d.month ∧ d.month ≤ 12 ∧
    1 ≤ d.day ∧ d.day ≤ daysInMonth d.year d.month

instance (d : Date) : Decidable d.valid := by
  unfold Date.valid; infer_instance

/-- `date.toordinal()`: day number with 0001-01-01 as day 1. -/
def Date.toordinal (d : Date) : Nat :=
  daysBeforeYear d.year + daysBeforeMonth d.year d.month + d.day

/-- CPython `date.__lt__`: lexicographic on (year, month, day). -/
def Date.lt (a b : Date) : Prop :=
  a.year < b.year ∨ (a.year = b.year ∧
    (a.month < b.month ∨ (a.month = b.month ∧ a.day < b.day)))

instance (a b : Date) : Decidable (Date.lt a b) := by
  unfold Date.lt; infer_instance

/-- `date.replace(year=y)` / `date(y, m, d)`: fails (ValueError) when
the resulting triple is not a valid date. -/
def mkDate (y m d : Nat) : Option Date :=
  if (Date.mk y m d).valid then some (Date.mk y m d) else none

/-! ## `datetime.strptime(s, '%Y/%m/%d')` -/

/-- Split a character list at every `'/'` (the pattern pieces `\d\d\d\d`,
month and day consist of digits only, so the slash positions are
unambiguous). -/
def splitOnSlash : List Char → List (List Char)
  | [] => [[]]
  | c :: cs =>
    if c = '/' then [] :: splitOnSlash cs
    else
      match splitOnSlash cs with
      | t :: ts => (c :: t) :: ts
      | [] => [[c]]

/-- CPython `_strptime` year field `%Y`: exactly four digits. -/
def yearField (cs : List Char) : Bool :=
  cs.length = 4 && cs.all Char.isDigit

/-- CPython `_strptime` month field `%m`:
`1[0-2]|0[1-9]|[1-9]` — one or two digits, value 1..12. -/
def monthField (cs : List Char) : Bool :=
  cs.all Char.isDigit && (cs.length = 1 || cs.length = 2) &&
    1 ≤ digitsToNat cs && digitsToNat cs ≤ 12

/-- CPython `_strptime` day field `%d`:
`3[01]|[12]\d|0[1-9]|[1-9]` — one or two digits, value 1..31. -/
def dayField (cs : List Char) : Bool :=
  cs.all Char.isDigit && (cs.length = 1 || cs.length = 2) &&
    1 ≤ digitsToNat cs && digitsToNat cs ≤ 31

/-- `datetime.strptime(s, '%Y/%m/%d')`, returning the parsed
(year, month, day) components, then validated by the `datetime`
constructor; `none` models the `ValueError` path. -/
def strptimeYmd (s : String) : Option (Nat × Nat × Nat) :=
  match splitOnSlash s.toList with
  | [ys, ms, ds] =>
    if yearField ys && monthField ms && dayField ds then
      if 1 ≤ digitsToNat ys ∧ 1 ≤ digitsToNat ds ∧
          digitsToNat ds ≤ daysInMonth (digitsToNat ys) (digitsToNat ms) then
        some (digitsToNat ys, digitsToNat ms, digitsToNat ds)
      else none
    else none
  | _ => none

/-- Success of the `Birthday` value setter: `datetime.strptime(new_value,
'%Y/%m/%d')` does not raise. -/
def validBirthday (s : String) : Bool :=
  (strptimeYmd s).isSome

/-! ## Record and AddressBook

`Field.__init__` assigns `self._value = value` directly, bypassing the
validating property setters of `Phone` and `Birthday`, so constructing a
`Record` can never raise: the embedding of construction is total.  Only
assignments through `field.value = x` run the validators.  A record's
name may be `None` (e.g. `handle_add` called without a parsed name), so
names — and hence AddressBook keys — are `Option String`. -/

structure Record where
  name : Option String
  birthday : Option String
  phones : List String
  deriving DecidableEq, Repr

/-- Python truthiness of an optional string (`None` and `""` are falsy). -/
def pyTruthy : Option String → Bool
  | none => false
  | some s => decide (s ≠ "")

/-- Python `str(x)` of an optional string under f-string interpolation
(`None` prints as `None`). -/
def pyStr : Option String → String
  | none => "None"
  | some s => s

/-- `Record.add_phone`: appends `Phone(phone)`; `Phone.__init__` performs
no validation (see above). -/
def addPhone (r : Record) (p : String) : Record :=
  { r with phones := r.phones ++ [p] }

/-- `Record.__init__(name, birthday=None, phones=None)`:
`Birthday(birthday) if birthday else None`, then `add_phone` per phone;
no field is validated on this path. -/
def recordInit (name bday : Option String) (phones : List String) : Record :=
  phones.foldl addPhone
    { name := name
      birthday := if pyTruthy bday then bday else none
      phones := [] }

/-- The AddressBook mapping `self.data`, as an insertion-ordered
association list; Python `dict` keeps keys unique, which every
operation below preserves. -/
abbrev Book := List (Option String × Record)

/-- `name in self.data` / `dict.__contains__`. -/
def containsKey (book : Book) (k : Option String) : Bool :=
  book.any (fun e => decide (e.1 = k))

/-- `self.data.get(name)` / `self.data[name]` (the latter raises on a
missing key; callers in scope check membership first). -/
def dictGet (book : Book) (k : Option String) : Option Record :=
  (book.find? (fun e => decide (e.1 = k))).map (·.2)

/-- `self.data[k] = v`: replaces in place (keeping the key's position)
when the key exists, else appends. -/
def dictSet (book : Book) (k : Option String) (v : Record) : Book :=
  if containsKey book k then book.map (fun e => if e.1 = k then (k, v) else e)
  else book ++ [(k, v)]

/-- `AddressBook.search_record(query)`: for each entry in insertion
order, append the name once if `query.lower() in name.lower()`, then
once per phone with `query == phone.value`.  A `None` key would raise
`AttributeError` at `name.lower()`, modelled as `none`. -/
def searchRecord : Book → String → Option (List String)
  | [], _ => some []
  | (none, _) :: _, _ => none
  | (some name, rec) :: rest, q =>
    (searchRecord rest q).map (fun tail =>
      (if pyIn (lowerStr q).toList (lowerStr name).toList then [name] else []) ++
        (rec.phones.filter (fun p => q = p)).map (fun _ => name) ++ tail)

/-! ## Command handlers (`Bot`)

Handlers print messages and (in one branch of `handle_change`) return
an error string; the embedding collects printed lines and the returned
string, in order, in the second component. -/

def msgMissingName : String := "[-] Missing required \x27name\x27 field."

def msgBadBirthday : String :=
  "[-] Incorrect date format for \x27birthday\x27. Use \x27YYYY/MM/DD\x27 format."

def msgBadPhone : String := "[-] Phone numbers must be 11-digit numerical strings."

def msgNameExists : String := "[-] Name already exists."

def msgNotFound : String := "[-] Record not found."

def msgAdded (name : Option String) : String :=
  "[+] Contact \x27" ++ pyStr name ++ "\x27 added successfully!"

def msgChanged (name : Option String) : String :=
  "[+] Contact \x27" ++ pyStr name ++ "\x27 changed successfully!"

/-- `Bot.handle_add(name, birthday, phones)`.  Every check only prints:
none of the error branches returns early, so the `Record` is always
constructed and inserted (overwriting an existing key). -/
def handleAdd (name bday : Option String) (phones : List String) (book : Book) :
    Book × List String :=
  let m1 := if !pyTruthy name then [msgMissingName] else []
  let m2 :=
    if pyTruthy bday then
      (if validBirthday (pyStr bday) then [] else [msgBadBirthday])
    else []
  let m3 := (phones.filter (fun p => !matchPhone p)).map (fun _ => msgBadPhone)
  let m4 := if containsKey book name then [msgNameExists] else []
  let record := recordInit name bday phones
  (dictSet book name record, m1 ++ m2 ++ m3 ++ m4 ++ [msgAdded name])

/-- `Bot.handle_change(name, birthday, phones)`.  The birthday is
validated and committed on its own; then the phones are all validated,
and on the first invalid one the handler returns the error string
(keeping the birthday already committed); otherwise the phone list is
replaced wholesale and success is reported. -/
def handleChange (name bday : Option String) (phones : List String) (book : Book) :
    Book × List String :=
  let m1 := if !pyTruthy name then [msgMissingName] else []
  match dictGet book name with
  | some rec =>
    let step :=
      if pyTruthy bday then
        (if validBirthday (pyStr bday) then ({ rec with birthday := bday }, ([] : List String))
         else (rec, [msgBadBirthday]))
      else (rec, [])
    if phones.isEmpty then
      (dictSet book name step.1, m1 ++ step.2 ++ [msgChanged name])
    else if phones.all matchPhone then
      (dictSet book name { step.1 with phones := phones }, m1 ++ step.2 ++ [msgChanged name])
    else
      (dictSet book name step.1, m1 ++ step.2 ++ [msgBadPhone])
  | none => (book, m1 ++ [msgNotFound])

/-! ## Tokenizer (`Bot.parse_input`)

`re.findall(r'\".*?\"|\'.*?\'|\S+', rest)` scans left to right; at a
quote character the lazy quoted alternative matches up to the nearest
closing quote of the same kind (while `.` cannot cross a newline), and
when no such closing quote exists the `\S+` alternative takes a maximal
run of non-whitespace characters. -/

/-- Scan the text after an opening quote `q` for the closing `q`,
without crossing a newline; returns the span and the rest. -/
def scanQuote (q : Char) : List Char → Option (List Char × List Char)
  | [] => none
  | c :: cs =>
    if c = q then some ([], cs)
    else if c = '\n' then none
    else (scanQuote q cs).map (fun pr => (c :: pr.1, pr.2))

/-- The token scan of `re.findall(r'\".*?\"|\'.*?\'|\S+', ·)`, with
explicit fuel; every step consumes at least one character before
recursing, so fuel `cs.length` (as supplied by `findTokens`) always
suffices. -/
def findTokensF : Nat → List Char → List (List Char)
  | 0, _ => []
  | _ + 1, [] => []
  | fuel + 1, c :: rest =>
    if pyIsSpace c then findTokensF fuel rest
    else if c = dquote || c = squote then
      match scanQuote c rest with
      | some pr => (c :: pr.1 ++ [c]) :: findTokensF fuel pr.2
      | none =>
        (c :: rest.takeWhile (fun x => !pyIsSpace x)) ::
          findTokensF fuel (rest.dropWhile (fun x => !pyIsSpace x))
    else
      (c :: rest.takeWhile (fun x => !pyIsSpace x)) ::
        findTokensF fuel (rest.dropWhile (fun x => !pyIsSpace x))

/-- `re.findall(r'\".*?\"|\'.*?\'|\S+', ·)`. -/
def findTokens (cs : List Char) : List (List Char) :=
  findTokensF cs.length cs

/-- `arg.strip('"\'') if arg[0] in '\'"' else arg`. -/
def stripQuotesArg (a : List Char) : List Char :=
  match a with
  | [] => []
  | c :: _ =>
    if c = squote || c = dquote then
      stripChars (fun x => x = dquote || x = squote) a
    else a

/-- The classification loop of `parse_input`: the last name-shaped and
last birthday-shaped tokens win, phone-shaped tokens accumulate in
order, and all other tokens are dropped. -/
def classifyArgs (args : List (List Char)) :
    Option String × Option String × List String :=
  args.foldl
    (fun acc a =>
      if matchName (String.mk a) then (some (String.mk a), acc.2.1, acc.2.2)
      else if matchBdayTok (String.mk a) then (acc.1, some (String.mk a), acc.2.2)
      else if matchPhone (String.mk a) then (acc.1, acc.2.1, acc.2.2 ++ [String.mk a])
      else acc)
    (none, none, [])

/-- The command keyword set, in the insertion order of `self.commands`. -/
def commandKeys : List String :=
  ["help", "hello", "show all", "show phones", "show birthday",
   "days to birthday", "add", "change", "delete", "search name"]

/-- `Bot.parse_input(input_string, commands)`: first keyword whose
lowercase form prefixes the lowercased input; the remainder (original
case) after the keyword is stripped, tokenized, unquoted, and
classified. -/
def parseInput (input : String) :
    Option String × Option String × Option String × List String :=
  match commandKeys.find? (fun k => (lowerStr k).toList.isPrefixOf (lowerStr input).toList) with
  | none => (none, none, none, [])
  | some cmd =>
    let rest := pyStrip (input.toList.drop cmd.length)
    let args := (findTokens rest).map stripQuotesArg
    let parsed := classifyArgs args
    (some cmd, parsed.1, parsed.2.1, parsed.2.2)

/-! ## Persistence row format (`save_to_csv` / `load_from_csv`)

A record is written as the row (Name, Birthday-or-empty, `str(phones)`)
— the csv delimiter/quoting mechanics are the external persistence
adapter.  `str` of a Python list of strings renders `['a', 'b']` with
`repr` per element; for the phone strings in scope (decimal digits, no
quotes or escapes) `repr s` is `'s'`.  `load_from_csv` recovers the
phone list by evaluating that text; `pyParseList` embeds the behaviour
of `eval` on exactly such list-literal texts. -/

/-- `repr`-rendered items joined by `", "` (element behaviour of
`str(list)` for quote-free strings). -/
def reprItems : List String → String
  | [] => ""
  | [x] => String.mk [squote] ++ x ++ String.mk [squote]
  | x :: y :: rest =>
    String.mk [squote] ++ x ++ String.mk [squote] ++ ", " ++
      reprItems (y :: rest)

/-- Python `str(xs)` for a list of quote-free strings. -/
def pyReprList (xs : List String) : String :=
  "[" ++ reprItems xs ++ "]"

/-- The row written by `save_to_csv` for one record: `Name`,
`Birthday` (`record.birthday.value if record.birthday else ""`), and
`str(phones_list)`; the csv module writes `None` cells as empty. -/
def toRow (r : Record) : String × String × String :=
  (r.name.getD "", r.birthday.getD "", pyReprList r.phones)

/-- Consume a single-quoted string body up to the closing quote. -/
def takeStr : List Char → Option (List Char × List Char)
  | [] => none
  | c :: cs =>
    if c = squote then some ([], cs)
    else (takeStr cs).map (fun pr => (c :: pr.1, pr.2))

/-- Parse the item sequence of a list literal, after the opening `[`,
up to and including the final `]`, with explicit fuel: one unit per
item, so fuel `cs.length` (as supplied by `pyParseList`) always
suffices. -/
def parseItemsF : Nat → List Char → Option (List String)
  | 0, _ => none
  | _ + 1, [] => none
  | fuel + 1, c :: rest =>
    if c = squote then
      match takeStr rest with
      | some pr =>
        match pr.2 with
        | [k] => if k = ']' then some [String.mk pr.1] else none
        | k :: s :: rest2 =>
          if k = ',' ∧ s = ' ' then (parseItemsF fuel rest2).map (String.mk pr.1 :: ·)
          else none
        | [] => none
      | none => none
    else none

/-- Item-sequence parse entry point. -/
def parseItems (cs : List Char) : Option (List String) :=
  parseItemsF cs.length cs

/-- `eval(phones_str)` restricted to the list-literal texts produced by
`str(list_of_strings)`: parses `[]` or `['a', 'b', ...]`. -/
def pyParseList (s : String) : Option (List String) :=
  match s.toList with
  | c :: rest =>
    if c = '[' then (if rest = [']'] then some [] else parseItems rest)
    else none
  | [] => none

/-- The per-row body of `load_from_csv`: `Record(name)`, then
`record.birthday = Birthday(birthday)` when the cell is nonempty, then
`add_phone` per decoded phone; fails when the phone cell does not
decode. -/
def fromRow (name bday phonesEnc : String) : Option Record :=
  (pyParseList phonesEnc).map fun ps =>
    let r0 := recordInit (some name) none []
    let r1 := if bday ≠ "" then { r0 with birthday := some bday } else r0
    ps.foldl addPhone r1

/-! ## `Bot.handle_d2b` (days to birthday) -/

/-- The computation of `handle_d2b` for a record whose stored birthday
string is `bstr`, on date `today`: parse the birthday, move it to this
year (a `ValueError` when that day does not exist in this year), roll
to next year when already past, and subtract dates. -/
def daysToBirthday (bstr : String) (today : Date) : Option Int :=
  (strptimeYmd bstr).bind fun ymd =>
    (mkDate today.year ymd.2.1 ymd.2.2).bind fun nb =>
      if Date.lt nb today then
        (mkDate (today.year + 1) ymd.2.1 ymd.2.2).map
          (fun nb2 => (nb2.toordinal : Int) - (today.toordinal : Int))
      else some ((nb.toordinal : Int) - (today.toordinal : Int))

/-! ## Calendar lemmas -/

theorem sumDIM_succ (y k : Nat) :
    sumDIM y (k + 1) = sumDIM y k + daysInMonth y (k + 1) := by
  simp [sumDIM, List.range_succ, List.foldl_append]

theorem sumDIM_mono (y : Nat) {k1 k2 : Nat} (h : k1 ≤ k2) :
    sumDIM y k1 ≤ sumDIM y k2 := by
  induction h with
  | refl => exact Nat.le_refl _
  | step _ ih => exact Nat.le_trans ih (by rw [sumDIM_succ]; omega)

theorem daysBeforeMonth_succ (y : Nat) {m : Nat} (h : 1 ≤ m) :
    daysBeforeMonth y (m + 1) = daysBeforeMonth y m + daysInMonth y m := by
  unfold daysBeforeMonth
  rw [show m + 1 - 1 = (m - 1) + 1 by omega, sumDIM_succ,
    show m - 1 + 1 = m by omega]

theorem daysInMonth_pos (y m : Nat) : 1 ≤ daysInMonth y m := by
  unfold daysInMonth
  split
  · split <;> omega
  · split <;> omega

theorem daysInMonth_le (y m : Nat) : daysInMonth y m ≤ 31 := by
  unfold daysInMonth
  split
  · split <;> omega
  · split <;> omega

theorem sumDIM_twelve (y : Nat) :
    sumDIM y 12 = 365 + (if isLeap y then 1 else 0) := by
  cases h : isLeap y <;>
    simp [sumDIM, List.range, List.range.loop, daysInMonth, h]

theorem daysBeforeMonth_add_day_le (y : Nat) {m d : Nat} (h1 : 1 ≤ m)
    (h12 : m ≤ 12) (hd : d ≤ daysInMonth y m) :
    daysBeforeMonth y m + d ≤ 365 + (if isLeap y then 1 else 0) := by
  have h2 : daysBeforeMonth y m + d ≤ daysBeforeMonth y (m + 1) := by
    rw [daysBeforeMonth_succ y h1]; omega
  have h3 : daysBeforeMonth y (m + 1) ≤ sumDIM y 12 := by
    unfold daysBeforeMonth
    exact sumDIM_mono y (by omega)
  rw [← sumDIM_twelve y]; omega

set_option maxHeartbeats 1000000 in
theorem daysBeforeYear_succ {y : Nat} (h : 1 ≤ y) :
    daysBeforeYear (y + 1) =
      daysBeforeYear y + (365 + (if isLeap y then 1 else 0)) := by
  by_cases h4 : y % 4 = 0 <;> by_cases h100 : y % 100 = 0 <;>
    by_cases h400 : y % 400 = 0 <;>
      simp [daysBeforeYear, isLeap, h4, h100, h400] <;> omega

theorem daysBeforeYear_mono {y1 y2 : Nat} (h : y1 ≤ y2) :
    daysBeforeYear y1 ≤ daysBeforeYear y2 := by
  unfold daysBeforeYear
  have h1 : (y1 - 1) / 4 ≤ (y2 - 1) / 4 := Nat.div_le_div_right (by omega)
  have h2 : (y1 - 1) / 400 ≤ (y2 - 1) / 400 := Nat.div_le_div_right (by omega)
  have h3 : (y2 - 1) / 100 ≤ (y1 - 1) / 100 + ((y2 - 1) - (y1 - 1)) := by
    omega
  omega

/-- `date.toordinal` is strictly monotone with respect to the
lexicographic comparison used by Python `date.__lt__`. -/
theorem toordinal_lt_of_lt {a b : Date} (ha : a.valid) (hb : b.valid)
    (h : Date.lt a b) : a.toordinal < b.toordinal := by
  obtain ⟨hay, hay2, ham, ham2, had, had2⟩ := ha
  obtain ⟨hby, hby2, hbm, hbm2, hbd, hbd2⟩ := hb
  rcases h with hy | ⟨hy, hm | ⟨hm, hd⟩⟩
  · have h1 : daysBeforeMonth a.year a.month + a.day ≤
        365 + (if isLeap a.year then 1 else 0) :=
      daysBeforeMonth_add_day_le a.year ham ham2 had2
    have h2 := daysBeforeYear_succ hay
    have h3 : daysBeforeYear (a.year + 1) ≤ daysBeforeYear b.year :=
      daysBeforeYear_mono (by omega)
    have h4 : 0 < daysBeforeMonth b.year b.month + b.day := by omega
    unfold Date.toordinal
    omega
  · have h1 : daysBeforeMonth a.year a.month + a.day ≤
        daysBeforeMonth a.year (a.month + 1) := by
      rw [daysBeforeMonth_succ a.year ham]; omega
    have h2 : daysBeforeMonth a.year (a.month + 1) ≤
        daysBeforeMonth b.year b.month := by
      rw [hy]; unfold daysBeforeMonth; exact sumDIM_mono b.year (by omega)
    unfold Date.toordinal
    rw [hy] at *
    omega
  · unfold Date.toordinal
    rw [hy, hm]
    omega

/-- Trichotomy for Python date comparison. -/
theorem date_eq_or_lt_of_not_lt {a b : Date} (h : ¬ Date.lt a b) :
    a = b ∨ Date.lt b a := by
  rcases a with ⟨ay, am, ad⟩
  rcases b with ⟨by_, bm, bd⟩
  simp only [Date.lt, Date.mk.injEq] at h ⊢
  omega

theorem toordinal_le_of_not_lt {a b : Date} (ha : a.valid) (hb : b.valid)
    (h : ¬ Date.lt a b) : b.toordinal ≤ a.toordinal := by
  rcases date_eq_or_lt_of_not_lt h with rfl | hlt
  · exact Nat.le_refl _
  · exact Nat.le_of_lt (toordinal_lt_of_lt hb ha hlt)

/-! ## Field value setters

`Phone.value` / `Birthday.value` setters: validate, then assign; on
failure they raise with a fixed message before assigning, so the stored
value is the previous one.  Result: (stored value, raised error). -/

/-- The `Phone` value setter. -/
def phoneValueSet (cur : Option String) (new : String) :
    Option String × Option String :=
  if matchPhone new then (some new, none) else (cur, some msgBadPhone)

/-- The `Birthday` value setter. -/
def birthdayValueSet (cur : Option String) (new : String) :
    Option String × Option String :=
  if validBirthday new then (some new, none) else (cur, some msgBadBirthday)

/-! ## Spec-side reference predicates -/

/-- Modelled from the spec: a phone is valid iff it "consists of exactly
11 decimal digits (no sign, no separators, nothing before or after the
11 digits)". -/
def specPhoneOk (s : String) : Bool :=
  s.toList.length = 11 && s.toList.all Char.isDigit

/-- Modelled from the spec: the claimed birthday domain — the string
"matches the pattern YYYY/MM/DD (four digits, slash, two digits, slash,
two digits) and the date component is a real calendar date". -/
def specBirthdayOk (s : String) : Bool :=
  match s.toList with
  | [a, b, c, d, s1, e, f, s2, g, h] =>
    a.isDigit && b.isDigit && c.isDigit && d.isDigit && s1 = '/' &&
      e.isDigit && f.isDigit && s2 = '/' && g.isDigit && h.isDigit &&
      (let y := digitsToNat [a, b, c, d]
       let m := digitsToNat [e, f]
       let dd := digitsToNat [g, h]
       1 ≤ y && 1 ≤ m && m ≤ 12 && 1 ≤ dd && dd ≤ daysInMonth y m)
  | _ => false

/-! ## Claims -/

/-- C1: the claim says `handle_add` on a name already present reports
the conflict and leaves the stored record unchanged.  The code prints
"[-] Name already exists." but, lacking an early return, still
constructs a fresh `Record` and inserts it, overwriting the stored
record (here: its phone list is lost) and printing success as well. -/
theorem handleAdd_duplicate_overwrites :
    handleAdd (some "John") none []
        [(some "John", ⟨some "John", none, ["11111111111"]⟩)] =
      ([(some "John", ⟨some "John", none, []⟩)],
        [msgNameExists, msgAdded (some "John")]) ∧
    dictGet (handleAdd (some "John") none []
        [(some "John", ⟨some "John", none, ["11111111111"]⟩)]).1
        (some "John") ≠
      some ⟨some "John", none, ["11111111111"]⟩ := by
  decide

/-- C2: the claim says constructing a `Record` with an invalid birthday
or an invalid phone fails atomically, `add_phone` validating before
appending.  `Field.__init__` assigns `self._value` directly, bypassing
the validating setters, so construction succeeds and stores both the
invalid birthday string and the invalid phone. -/
theorem recordInit_skips_validation :
    recordInit (some "John") (some "2024/99/99") ["123"] =
      ⟨some "John", some "2024/99/99", ["123"]⟩ ∧
    validBirthday "2024/99/99" = false ∧
    matchPhone "123" = false ∧
    addPhone (recordInit (some "John") none []) "123" =
      ⟨some "John", none, ["123"]⟩ := by
  decide

/-- C9: tokenizing `"add John 1234567890 1"` yields command `add`, name
`John`, no birthday and no phones; the tokens `1234567890` and `1`
match none of the three classification patterns and are dropped. -/
theorem parseInput_drops_unclassified_tokens :
    parseInput "add John 1234567890 1" = (some "add", some "John", none, []) ∧
    matchName "1234567890" = false ∧ matchBdayTok "1234567890" = false ∧
    matchPhone "1234567890" = false ∧
    matchName "1" = false ∧ matchBdayTok "1" = false ∧
    matchPhone "1" = false := by
  decide

/-- C6 counterexample: on the book containing "Bob Smith" with phone
"55512340001", `search_record("555")` returns the empty list — "555" is
not a substring of the lowercased name and phone matching is exact
equality, so the result does not contain "Bob Smith". -/
theorem search_555_misses_bob :
    searchRecord [(some "Bob Smith", ⟨some "Bob Smith", none, ["55512340001"]⟩)]
        "555" = some [] ∧
    decide ("Bob Smith" ∈ ([] : List String)) = false := by
  decide

/-- C6 amended: on that same book, a query equal to the full stored
phone value, or a case-insensitive substring of the name, does return
"Bob Smith" (once, in insertion order), while `"555"` returns the empty
list. -/
theorem search_bob_by_exact_phone_or_name_substring :
    searchRecord [(some "Bob Smith", ⟨some "Bob Smith", none, ["55512340001"]⟩)]
        "55512340001" = some ["Bob Smith"] ∧
    searchRecord [(some "Bob Smith", ⟨some "Bob Smith", none, ["55512340001"]⟩)]
        "Smith" = some ["Bob Smith"] ∧
    searchRecord [(some "Bob Smith", ⟨some "Bob Smith", none, ["55512340001"]⟩)]
        "555" = some [] := by
  decide

/-- C5 counterexample: Python `$` matches just before a trailing
newline, so the phone validator accepts `"12345678901\n"`, which is not
a string of exactly 11 decimal digits. -/
theorem matchPhone_trailing_newline :
    matchPhone "12345678901\x0a" = true ∧
    specPhoneOk "12345678901\x0a" = false := by
  decide

theorem matchPhone_iff_aux (s : String) :
    matchPhone s = true ↔
      (s.toList.length = 11 ∧ ∀ c ∈ s.toList, c.isDigit = true) ∨
      (∃ t : List Char, s.toList = t ++ ['\n'] ∧ t.length = 11 ∧
        ∀ c ∈ t, c.isDigit = true) := by
  unfold matchPhone dollarWrap phoneCore
  constructor
  · intro h
    rw [Bool.or_eq_true] at h
    rcases h with h | h
    · left; simpa [List.all_eq_true] using h
    · cases hl : s.toList.getLast? with
      | none => rw [hl] at h; simp at h
      | some c =>
        rw [hl] at h
        simp only [Bool.and_eq_true, decide_eq_true_eq, List.all_eq_true] at h
        obtain ⟨hc, hlen, hdig⟩ := h
        right
        refine ⟨s.toList.dropLast, ?_, by simpa using hlen, hdig⟩
        have hmem : c ∈ s.toList.getLast? := Option.mem_def.mpr hl
        have := List.dropLast_append_getLast? c hmem
        rw [hc] at this
        exact this.symm
  · intro h
    rw [Bool.or_eq_true]
    rcases h with ⟨hlen, hdig⟩ | ⟨t, ht, hlen, hdig⟩
    · left
      simp only [Bool.and_eq_true, decide_eq_true_eq, List.all_eq_true]
      exact ⟨hlen, hdig⟩
    · right
      rw [ht]
      simp [List.getLast?_concat, List.dropLast_concat, hlen,
        List.all_eq_true]
      exact hdig

/-- C5 amended: phone validation succeeds iff the string is exactly 11
decimal digits, or 11 decimal digits followed by one trailing newline
(Python `$` matches before a final newline); on every failing string
the setter raises the fixed message and leaves the previous value
untouched. -/
theorem matchPhone_exact_domain :
    (∀ s : String, matchPhone s = true ↔
      (s.toList.length = 11 ∧ ∀ c ∈ s.toList, c.isDigit = true) ∨
      (∃ t : List Char, s.toList = t ++ ['\n'] ∧ t.length = 11 ∧
        ∀ c ∈ t, c.isDigit = true)) ∧
    (∀ (cur : Option String) (s : String),
      (phoneValueSet cur s).2 = none ∨
        phoneValueSet cur s = (cur, some msgBadPhone)) := by
  refine ⟨matchPhone_iff_aux, fun cur s => ?_⟩
  unfold phoneValueSet
  split
  · exact Or.inl rfl
  · exact Or.inr rfl

/-- Witness for the C5 amended theorem at a concrete string. -/
theorem matchPhone_exact_domain_witness :
    matchPhone "12345678901" = true ↔
      ((("12345678901" : String).toList.length = 11 ∧
        ∀ c ∈ ("12345678901" : String).toList, c.isDigit = true) ∨
       (∃ t : List Char, ("12345678901" : String).toList = t ++ ['\n'] ∧
         t.length = 11 ∧ ∀ c ∈ t, c.isDigit = true)) :=
  matchPhone_exact_domain.1 "12345678901"

/-- C4 counterexample: `strptime('%Y/%m/%d')` accepts one-digit month
and day fields, so birthday validation accepts `"2024/2/3"`, which does
not match the four-two-two digit pattern `YYYY/MM/DD`. -/
theorem validBirthday_accepts_short_fields :
    validBirthday "2024/2/3" = true ∧
    specBirthdayOk "2024/2/3" = false := by
  decide

/-- Inverse of `splitOnSlash`. -/
def joinSlash : List (List Char) → List Char
  | [] => []
  | [x] => x
  | x :: y :: rest => x ++ '/' :: joinSlash (y :: rest)

theorem splitOnSlash_ne_nil : ∀ cs : List Char, splitOnSlash cs ≠ []
  | [] => by simp [splitOnSlash]
  | c :: cs => by
    simp only [splitOnSlash]
    split
    · simp
    · split <;> simp

theorem joinSlash_cons (c : Char) (x : List Char) (ts : List (List Char)) :
    joinSlash ((c :: x) :: ts) = c :: joinSlash (x :: ts) := by
  cases ts <;> simp [joinSlash]

theorem joinSlash_splitOnSlash : ∀ cs : List Char, joinSlash (splitOnSlash cs) = cs
  | [] => rfl
  | c :: cs => by
    have ih := joinSlash_splitOnSlash cs
    simp only [splitOnSlash]
    split
    · rename_i hc
      obtain ⟨t, ts, ht⟩ := List.exists_cons_of_ne_nil (splitOnSlash_ne_nil cs)
      rw [ht] at ih ⊢
      simp only [joinSlash, List.nil_append]
      rw [hc, ih]
    · split
      · rename_i t2 ts2 ht2
        rw [ht2] at ih
        rw [joinSlash_cons, ih]
      · rename_i hnil
        exact absurd hnil (splitOnSlash_ne_nil cs)

theorem splitOnSlash_of_not_mem : ∀ {cs : List Char}, '/' ∉ cs → splitOnSlash cs = [cs]
  | [], _ => rfl
  | c :: cs, h => by
    have h1 : ¬ c = '/' := fun hc => h (by simp [hc])
    have h2 : '/' ∉ cs := fun hm => h (by simp [hm])
    simp only [splitOnSlash, if_neg h1, splitOnSlash_of_not_mem h2]

theorem splitOnSlash_append {a : List Char} (rest : List Char) (h : '/' ∉ a) :
    splitOnSlash (a ++ '/' :: rest) = a :: splitOnSlash rest := by
  induction a with
  | nil => simp [splitOnSlash]
  | cons c a ih =>
    have h1 : ¬ c = '/' := fun hc => h (by simp [hc])
    have h2 : '/' ∉ a := fun hm => h (by simp [hm])
    simp only [List.cons_append, splitOnSlash, if_neg h1]
    rw [List.append_eq, ih h2]

theorem validBirthday_iff_aux (s : String) :
    validBirthday s = true ↔
      ∃ ys ms ds : List Char,
        s.toList = ys ++ '/' :: (ms ++ '/' :: ds) ∧
        ys.length = 4 ∧ (∀ c ∈ ys, c.isDigit = true) ∧
        (ms.length = 1 ∨ ms.length = 2) ∧ (∀ c ∈ ms, c.isDigit = true) ∧
        (ds.length = 1 ∨ ds.length = 2) ∧ (∀ c ∈ ds, c.isDigit = true) ∧
        1 ≤ digitsToNat ys ∧ 1 ≤ digitsToNat ms ∧ digitsToNat ms ≤ 12 ∧
        1 ≤ digitsToNat ds ∧
        digitsToNat ds ≤ daysInMonth (digitsToNat ys) (digitsToNat ms) := by
  unfold validBirthday strptimeYmd
  constructor
  · intro h
    split at h
    · rename_i ys ms ds heq
      split at h
      · split at h
        · rename_i hfields hrange
          simp only [yearField, monthField, dayField, Bool.and_eq_true,
            Bool.or_eq_true, decide_eq_true_eq, List.all_eq_true] at hfields
          refine ⟨ys, ms, ds, ?_, by tauto, by tauto, by tauto, by tauto,
            by tauto, by tauto, by tauto, by tauto, by tauto, by tauto,
            by tauto⟩
          have hj := joinSlash_splitOnSlash s.toList
          rw [heq] at hj
          simpa [joinSlash] using hj.symm
        · simp at h
      · simp at h
    · simp at h
  · rintro ⟨ys, ms, ds, hdecomp, h4, hdy, hm12, hdm, hd12, hdd, hy1, hm1,
      hm2, hd1, hdle⟩
    have hys : '/' ∉ ys := fun hm => absurd (hdy _ hm) (by decide)
    have hms : '/' ∉ ms := fun hm => absurd (hdm _ hm) (by decide)
    have hds : '/' ∉ ds := fun hm => absurd (hdd _ hm) (by decide)
    rw [hdecomp, splitOnSlash_append _ hys, splitOnSlash_append _ hms,
      splitOnSlash_of_not_mem hds]
    have hY : yearField ys = true := by
      simp only [yearField, Bool.and_eq_true, decide_eq_true_eq,
        List.all_eq_true]
      exact ⟨h4, hdy⟩
    have hM : monthField ms = true := by
      simp only [monthField, Bool.and_eq_true, Bool.or_eq_true,
        decide_eq_true_eq, List.all_eq_true]
      tauto
    have hD : dayField ds = true := by
      have h31 : digitsToNat ds ≤ 31 := Nat.le_trans hdle (daysInMonth_le _ _)
      simp only [dayField, Bool.and_eq_true, Bool.or_eq_true,
        decide_eq_true_eq, List.all_eq_true]
      tauto
    simp [hY, hM, hD, hy1, hd1, hdle]

/-- C4 amended: birthday validation succeeds iff the string splits as
`Y/M/D` with `Y` exactly four digits and `M`, `D` one or two digits
each, such that `1 ≤ year`, `1 ≤ month ≤ 12` and `day` is a real day of
that month in that year.  So every real `YYYY/MM/DD` calendar date is
accepted and invalid calendar dates (e.g. `2024/02/30`) and malformed
strings are rejected, but `strptime` also accepts one-digit month/day
forms such as `2024/2/3`; on failure the setter raises the fixed
message and leaves the previous value untouched. -/
theorem validBirthday_exact_domain :
    (∀ s : String, validBirthday s = true ↔
      ∃ ys ms ds : List Char,
        s.toList = ys ++ '/' :: (ms ++ '/' :: ds) ∧
        ys.length = 4 ∧ (∀ c ∈ ys, c.isDigit = true) ∧
        (ms.length = 1 ∨ ms.length = 2) ∧ (∀ c ∈ ms, c.isDigit = true) ∧
        (ds.length = 1 ∨ ds.length = 2) ∧ (∀ c ∈ ds, c.isDigit = true) ∧
        1 ≤ digitsToNat ys ∧ 1 ≤ digitsToNat ms ∧ digitsToNat ms ≤ 12 ∧
        1 ≤ digitsToNat ds ∧
        digitsToNat ds ≤ daysInMonth (digitsToNat ys) (digitsToNat ms)) ∧
    validBirthday "2024/02/30" = false ∧
    validBirthday "2024/13/01" = false ∧
    validBirthday "2024/02/03" = true ∧
    validBirthday "2024/2/3" = true ∧
    (∀ (cur : Option String) (s : String),
      (birthdayValueSet cur s).2 = none ∨
        birthdayValueSet cur s = (cur, some msgBadBirthday)) := by
  refine ⟨validBirthday_iff_aux, by decide, by decide, by decide, by decide,
    fun cur s => ?_⟩
  unfold birthdayValueSet
  split
  · exact Or.inl rfl
  · exact Or.inr rfl

/-- Witness for the C4 amended theorem at a concrete string. -/
theorem validBirthday_exact_domain_witness :
    validBirthday "2024/02/03" = true ↔
      ∃ ys ms ds : List Char,
        ("2024/02/03" : String).toList = ys ++ '/' :: (ms ++ '/' :: ds) ∧
        ys.length = 4 ∧ (∀ c ∈ ys, c.isDigit = true) ∧
        (ms.length = 1 ∨ ms.length = 2) ∧ (∀ c ∈ ms, c.isDigit = true) ∧
        (ds.length = 1 ∨ ds.length = 2) ∧ (∀ c ∈ ds, c.isDigit = true) ∧
        1 ≤ digitsToNat ys ∧ 1 ≤ digitsToNat ms ∧ digitsToNat ms ≤ 12 ∧
        1 ≤ digitsToNat ds ∧
        digitsToNat ds ≤ daysInMonth (digitsToNat ys) (digitsToNat ms) :=
  validBirthday_exact_domain.1 "2024/02/03"

/-- C3 counterexample: changing an existing record with a valid
birthday and an invalid phone commits the birthday, then reports the
phone validation error — a validation error is reported *and* the book
is observably changed, refuting validate-then-commit across fields. -/
theorem handleChange_partial_update :
    msgBadPhone ∈ (handleChange (some "John") (some "2020/01/01") ["123"]
      [(some "John", ⟨some "John", none, ["11111111111"]⟩)]).2 ∧
    (handleChange (some "John") (some "2020/01/01") ["123"]
      [(some "John", ⟨some "John", none, ["11111111111"]⟩)]).1 ≠
      [(some "John", ⟨some "John", none, ["11111111111"]⟩)] := by
  decide

/-- C3 amended: validation in `handle_change` is per field, not
transactional.  On a found record, each supplied field is validated and
committed independently: the birthday is committed iff it alone
validates, the phone list is replaced iff all supplied phones validate,
and an error message is emitted per failing field — so one field's
failure never rolls back the other field's committed update, but no
single field is ever partially updated. -/
theorem handleChange_per_field_commit :
    ∀ (name bday : Option String) (phones : List String) (book : Book)
      (rec : Record), dictGet book name = some rec →
      handleChange name bday phones book =
        (dictSet book name
          { name := rec.name
            birthday :=
              if pyTruthy bday && validBirthday (pyStr bday) then bday
              else rec.birthday
            phones :=
              if !phones.isEmpty && phones.all matchPhone then phones
              else rec.phones },
          (if !pyTruthy name then [msgMissingName] else []) ++
            (if pyTruthy bday && !validBirthday (pyStr bday) then
              [msgBadBirthday] else []) ++
            [if !phones.isEmpty && !phones.all matchPhone then msgBadPhone
             else msgChanged name]) := by
  intro name bday phones book rec h
  unfold handleChange
  rw [h]
  rcases rec with ⟨rn, rb, rp⟩
  cases hb : pyTruthy bday <;> cases hv : validBirthday (pyStr bday) <;>
    cases hp : phones.isEmpty <;> cases ha : phones.all matchPhone <;>
      simp [hb, hv, hp, ha]

/-- Witness for the C3 amended theorem at a concrete input. -/
theorem handleChange_per_field_commit_witness :
    handleChange (some "John") (some "2020/01/01") ["123"]
        [(some "John", ⟨some "John", none, ["11111111111"]⟩)] =
      (dictSet [(some "John", ⟨some "John", none, ["11111111111"]⟩)]
        (some "John")
        { name := some "John"
          birthday :=
            if pyTruthy (some "2020/01/01") &&
                validBirthday (pyStr (some "2020/01/01")) then
              some "2020/01/01"
            else none
          phones :=
            if !(["123"] : List String).isEmpty &&
                (["123"] : List String).all matchPhone then ["123"]
            else ["11111111111"] },
        (if !pyTruthy (some "John") then [msgMissingName] else []) ++
          (if pyTruthy (some "2020/01/01") &&
              !validBirthday (pyStr (some "2020/01/01")) then
            [msgBadBirthday] else []) ++
          [if !(["123"] : List String).isEmpty &&
              !(["123"] : List String).all matchPhone then msgBadPhone
           else msgChanged (some "John")]) :=
  handleChange_per_field_commit (some "John") (some "2020/01/01") ["123"]
    [(some "John", ⟨some "John", none, ["11111111111"]⟩)]
    ⟨some "John", none, ["11111111111"]⟩ (by decide)

theorem mkDate_some {y m d : Nat} {dt : Date}
    (h : mkDate y m d = some dt) : dt = ⟨y, m, d⟩ ∧ Date.valid ⟨y, m, d⟩ := by
  unfold mkDate at h
  split at h
  · cases h; exact ⟨rfl, by assumption⟩
  · cases h

/-- C7 counterexample: for birthday `2020/03/10` and today
`2025/03/11`, the next occurrence is 2026/03/10 and the computed count
is 364, not the claimed 365. -/
theorem daysToBirthday_364 :
    daysToBirthday "2020/03/10" ⟨2025, 3, 11⟩ = some 364 ∧
    ¬ daysToBirthday "2020/03/10" ⟨2025, 3, 11⟩ = some 365 := by
  decide

/-- C7 amended: whenever `handle_d2b`'s computation returns a value
(which it does unless a `ValueError` is raised, e.g. for a Feb 29
birthday moved into a non-leap year), the value is non-negative and
equals the distance in days from today to an occurrence of the
birthday's month/day on or after today, at most one year ahead; in
particular it returns 0 on 2025/03/10 and 364 on 2025/03/11 for a
birthday of 2020/03/10. -/
theorem daysToBirthday_spec :
    (∀ (bstr : String) (t : Date) (n : Int), t.valid →
      daysToBirthday bstr t = some n →
      0 ≤ n ∧ ∃ next : Date, next.valid ∧
        (∃ y m d : Nat, strptimeYmd bstr = some (y, m, d) ∧
          next.month = m ∧ next.day = d) ∧
        (next = t ∨ Date.lt t next) ∧
        t.year ≤ next.year ∧ next.year ≤ t.year + 1 ∧
        n = (next.toordinal : Int) - (t.toordinal : Int)) ∧
    daysToBirthday "2020/03/10" ⟨2025, 3, 10⟩ = some 0 ∧
    daysToBirthday "2020/03/10" ⟨2025, 3, 11⟩ = some 364 := by
  refine ⟨?_, by decide, by decide⟩
  intro bstr t n ht h
  unfold daysToBirthday at h
  cases hp : strptimeYmd bstr with
  | none => rw [hp] at h; cases h
  | some ymd =>
    obtain ⟨y0, m0, d0⟩ := ymd
    rw [hp, Option.some_bind] at h
    cases hm1 : mkDate t.year m0 d0 with
    | none => rw [hm1] at h; cases h
    | some nb =>
      rw [hm1, Option.some_bind] at h
      obtain ⟨hnb, hnbv⟩ := mkDate_some hm1
      subst hnb
      split at h
      · rename_i hlt
        cases hm2 : mkDate (t.year + 1) m0 d0 with
        | none => rw [hm2] at h; cases h
        | some nb2 =>
          rw [hm2, Option.map_some'] at h
          obtain ⟨hnb2, hnb2v⟩ := mkDate_some hm2
          subst hnb2
          cases h
          have htlt : Date.lt t ⟨t.year + 1, m0, d0⟩ :=
            Or.inl (Nat.lt_succ_self t.year)
          have hord := toordinal_lt_of_lt ht hnb2v htlt
          refine ⟨by omega, ⟨t.year + 1, m0, d0⟩, hnb2v,
            ⟨y0, m0, d0, rfl, rfl, rfl⟩, Or.inr htlt, Nat.le_succ _,
            Nat.le_refl _, rfl⟩
      · rename_i hnlt
        cases h
        have hord := toordinal_le_of_not_lt hnbv ht hnlt
        refine ⟨by omega, ⟨t.year, m0, d0⟩, hnbv,
          ⟨y0, m0, d0, rfl, rfl, rfl⟩, date_eq_or_lt_of_not_lt hnlt,
          Nat.le_refl _, Nat.le_succ _, rfl⟩

/-- Witness for the C7 amended theorem at a concrete input. -/
theorem daysToBirthday_spec_witness :
    0 ≤ (0 : Int) ∧ ∃ next : Date, next.valid ∧
      (∃ y m d : Nat, strptimeYmd "2020/03/10" = some (y, m, d) ∧
        next.month = m ∧ next.day = d) ∧
      (next = (⟨2025, 3, 10⟩ : Date) ∨ Date.lt ⟨2025, 3, 10⟩ next) ∧
      (⟨2025, 3, 10⟩ : Date).year ≤ next.year ∧
      next.year ≤ (⟨2025, 3, 10⟩ : Date).year + 1 ∧
      (0 : Int) = (next.toordinal : Int) -
        (((⟨2025, 3, 10⟩ : Date).toordinal : Nat) : Int) :=
  daysToBirthday_spec.1 "2020/03/10" ⟨2025, 3, 10⟩ 0 (by decide) (by decide)

/-! ## Round trip of the persistence row -/

theorem takeStr_encode :
    ∀ (a : List Char), (∀ c ∈ a, ¬ c = squote) → ∀ tail : List Char,
      takeStr (a ++ squote :: tail) = some (a, tail)
  | [], _, tail => by simp [takeStr]
  | c :: a, h, tail => by
    have hc : ¬ c = squote := h c (by simp)
    have ha : ∀ x ∈ a, ¬ x = squote := fun x hx => h x (by simp [hx])
    simp only [List.cons_append, takeStr, if_neg hc]
    rw [List.append_eq, takeStr_encode a ha tail, Option.map_some']

theorem reprItems_startsWith_squote :
    ∀ (x : String) (rest : List String),
      ∃ t : List Char, (reprItems (x :: rest)).toList = squote :: t
  | x, [] =>
    ⟨x.toList ++ [squote],
      by simp [reprItems, String.data_append]⟩
  | x, y :: rest2 =>
    ⟨x.toList ++ squote :: ',' :: ' ' :: (reprItems (y :: rest2)).toList,
      by simp [reprItems, String.data_append]⟩

theorem digits_no_squote {p : String}
    (h : ∀ c ∈ p.toList, c.isDigit = true) : ∀ c ∈ p.toList, ¬ c = squote :=
  fun c hc heq => absurd (heq ▸ h c hc) (by decide)

theorem parseItemsF_encode :
    ∀ (xs : List String) (fuel : Nat), xs ≠ [] → xs.length ≤ fuel →
      (∀ p ∈ xs, ∀ c ∈ p.toList, c.isDigit = true) →
      parseItemsF fuel ((reprItems xs).toList ++ [']']) = some xs := by
  intro xs
  induction xs with
  | nil => intro fuel h; exact absurd rfl h
  | cons x rest ih =>
    intro fuel _ hfuel hdig
    obtain ⟨f, rfl⟩ : ∃ f, fuel = f + 1 := by
      cases fuel
      · simp at hfuel
      · exact ⟨_, rfl⟩
    have hx : ∀ c ∈ x.toList, ¬ c = squote :=
      digits_no_squote (hdig x (by simp))
    cases rest with
    | nil =>
      have hshape : (reprItems [x]).toList ++ [']'] =
          squote :: (x.toList ++ squote :: [']']) := by
        simp [reprItems, String.data_append]
      rw [hshape]
      simp only [parseItemsF, if_pos rfl, takeStr_encode x.toList hx]
      simp
    | cons y rest2 =>
      have hshape : (reprItems (x :: y :: rest2)).toList ++ [']'] =
          squote :: (x.toList ++ squote :: ',' :: ' ' ::
            ((reprItems (y :: rest2)).toList ++ [']'])) := by
        simp [reprItems, String.data_append]
      rw [hshape]
      have hrec := ih f (by simp) (by simp at hfuel ⊢; omega)
        (fun p hp => hdig p (by simp [hp]))
      simp only [parseItemsF, if_pos rfl, takeStr_encode x.toList hx]
      simp
      exact hrec

theorem reprItems_length_ge :
    ∀ (x : String) (rest : List String),
      (x :: rest).length ≤ (reprItems (x :: rest)).toList.length
  | x, [] => by simp [reprItems, String.data_append]
  | x, y :: rest2 => by
    have ih := reprItems_length_ge y rest2
    simp only [reprItems, String.data_append, List.length_cons] at ih ⊢
    simp at ih ⊢
    omega

theorem pyParseList_repr (xs : List String)
    (h : ∀ p ∈ xs, ∀ c ∈ p.toList, c.isDigit = true) :
    pyParseList (pyReprList xs) = some xs := by
  cases xs with
  | nil => rfl
  | cons x rest =>
    obtain ⟨t, ht⟩ := reprItems_startsWith_squote x rest
    have hshape : (pyReprList (x :: rest)).toList =
        '[' :: (squote :: (t ++ [']'])) := by
      simp [pyReprList, String.data_append]
      rw [show (reprItems (x :: rest)).data = squote :: t from ht]
      simp
    unfold pyParseList
    rw [hshape]
    have hsq : ¬ squote = ']' := by decide
    have hne : ¬ (squote :: (t ++ [']']) = [']']) := by
      simp [hsq]
    have hlen : (x :: rest).length ≤ (squote :: (t ++ [']'])).length := by
      have h0 := reprItems_length_ge x rest
      rw [ht] at h0
      simp at h0 ⊢
      omega
    have hmain := parseItemsF_encode (x :: rest)
      (squote :: (t ++ [']'])).length (by simp) hlen h
    have harg : (reprItems (x :: rest)).toList ++ [']'] =
        squote :: (t ++ [']']) := by rw [ht]; rfl
    rw [harg] at hmain
    simpa [parseItems, hne] using hmain

theorem foldl_addPhone (ps : List String) :
    ∀ r : Record, ps.foldl addPhone r = { r with phones := r.phones ++ ps } := by
  induction ps with
  | nil => intro r; simp
  | cons p ps ih =>
    intro r
    rw [List.foldl_cons, ih]
    simp [addPhone]

/-- C8: serializing a record to its on-disk row and parsing the row
back yields an equal record — same name, same optional birthday (an
empty birthday cell decodes to no birthday), and the same phones in
order — for every record whose birthday, if present, is nonempty and
whose phones are digit strings (which all valid phones are). -/
theorem row_roundtrip :
    ∀ (name : String) (bday : Option String) (phones : List String),
      bday ≠ some "" →
      (∀ p ∈ phones, ∀ c ∈ p.toList, c.isDigit = true) →
      fromRow (toRow ⟨some name, bday, phones⟩).1
          (toRow ⟨some name, bday, phones⟩).2.1
          (toRow ⟨some name, bday, phones⟩).2.2 =
        some (⟨some name, bday, phones⟩ : Record) := by
  intro name bday phones hb hd
  unfold toRow fromRow
  simp only [pyParseList_repr phones hd, Option.map_some']
  rw [foldl_addPhone]
  cases bday with
  | none => rfl
  | some b =>
    have hbne : ¬ b = "" := fun hc => hb (by rw [hc])
    simp [recordInit, pyTruthy, hbne]

/-- Witness for the C8 round-trip theorem at a concrete record. -/
theorem row_roundtrip_witness :
    fromRow (toRow ⟨some "Bob", some "2020/03/10", ["11111111111"]⟩).1
        (toRow ⟨some "Bob", some "2020/03/10", ["11111111111"]⟩).2.1
        (toRow ⟨some "Bob", some "2020/03/10", ["11111111111"]⟩).2.2 =
      some (⟨some "Bob", some "2020/03/10", ["11111111111"]⟩ : Record) :=
  row_roundtrip "Bob" (some "2020/03/10") ["11111111111"] (by decide)
    (by decide)

/-! ## Search safety -/

theorem dictGet_isSome_of_containsKey :
    ∀ (book : Book) (k : Option String),
      containsKey book k = true → dictGet book k ≠ none := by
  intro book k
  induction book with
  | nil => intro h; simp [containsKey] at h
  | cons e rest ih =>
    intro h
    by_cases he : e.1 = k
    · simp [dictGet, List.find?_cons, he]
    · simp only [containsKey, List.any_cons, Bool.or_eq_true,
        decide_eq_true_eq] at h
      rcases h with h | h
      · exact absurd h he
      · have hd : (decide (e.1 = k)) = false := by simpa using he
        simp only [dictGet, List.find?_cons, hd]
        exact ih h

/-- C10: every name in a successful `search_record` result is a key
present in the AddressBook mapping, so `handle_search_name`'s
subsequent `self.address_book.data[name]` lookup cannot raise a
missing-key error. -/
theorem searchRecord_names_present :
    ∀ (book : Book) (q : String) (res : List String),
      searchRecord book q = some res → ∀ n ∈ res,
        containsKey book (some n) = true ∧ dictGet book (some n) ≠ none := by
  intro book
  induction book with
  | nil =>
    intro q res h n hn
    cases h
    simp at hn
  | cons e rest ih =>
    obtain ⟨k, rec⟩ := e
    cases k with
    | none => intro q res h; cases h
    | some name =>
      intro q res h n hn
      simp only [searchRecord] at h
      cases ht : searchRecord rest q with
      | none => rw [ht] at h; cases h
      | some tail =>
        rw [ht, Option.map_some'] at h
        cases h
        have hck : containsKey ((some name, rec) :: rest) (some n) = true := by
          rw [List.append_assoc] at hn
          rcases List.mem_append.mp hn with hpre | hrest
          · have hneq : n = name := by
              split at hpre <;> simp at hpre
              exact hpre
            subst hneq
            simp [containsKey]
          · rcases List.mem_append.mp hrest with hmap | htail
            · have hneq : n = name := by
                simp only [List.mem_map] at hmap
                exact hmap.choose_spec.2.symm
              subst hneq
              simp [containsKey]
            · have := (ih q tail ht n htail).1
              simp only [containsKey, List.any_cons, Bool.or_eq_true]
              right
              simpa [containsKey] using this
        exact ⟨hck, dictGet_isSome_of_containsKey _ _ hck⟩

/-- Witness for the C10 theorem at a concrete book and query. -/
theorem searchRecord_names_present_witness :
    containsKey [(some "Ann", ⟨some "Ann", none, []⟩)] (some "Ann") = true ∧
    dictGet [(some "Ann", ⟨some "Ann", none, []⟩)] (some "Ann") ≠ none :=
  searchRecord_names_present [(some "Ann", ⟨some "Ann", none, []⟩)] "ann"
    ["Ann"] (by decide) "Ann" (by decide)

end ContactBot
